import Mathlib

/-
Verification of the confumo configuration library.

The definitions below are a shallow embedding of the Python sources
src/confumo/confumo.py and src/confumo/singleton_base.py.  Python dicts
are modelled as association lists with unique keys (insertion order kept,
as Python dicts do), the filesystem as an explicit state record, and the
external collaborators (the YAML serializer, the cygpath subprocess, the
environment) as small concrete models or explicit parameters.
-/

deriving instance DecidableEq for Except

namespace ConfumoModel

/-- Python str.startswith, computed on the character list of the string. -/
def strStartsWith (s p : String) : Bool := p.data.isPrefixOf s.data

/-- Python str.strip with no arguments: drop leading and trailing whitespace. -/
def pyStrip (s : String) : String :=
  ⟨((s.data.dropWhile Char.isWhitespace).reverse.dropWhile Char.isWhitespace).reverse⟩

/-- Python str.lower, character by character. -/
def strLower (s : String) : String := ⟨s.data.map Char.toLower⟩

/-- Substring test on character lists (Python operator in applied to str). -/
def listContainsSub (needle : List Char) : List Char → Bool
  | [] => needle.isPrefixOf ([] : List Char)
  | c :: rest => needle.isPrefixOf (c :: rest) || listContainsSub needle rest

/-- Lookup in a Python dict modelled as an association list (first match). -/
def dictGet [DecidableEq κ] : List (κ × α) → κ → Option α
  | [], _ => none
  | (k', v) :: rest, k => if k' = k then some v else dictGet rest k

/-- The keys of a dict, in insertion order. -/
def dictKeys (d : List (κ × α)) : List κ := d.map Prod.fst

/-- Python dict item assignment: replace the value in place if the key is
present, append the new pair otherwise. -/
def dictSet [DecidableEq κ] : List (κ × α) → κ → α → List (κ × α)
  | [], k, v => [(k, v)]
  | (k', v') :: rest, k, v =>
    if k' = k then (k', v) :: rest else (k', v') :: dictSet rest k v

/-- Python dict.update: assign every pair of the second dict into the first. -/
def dictUpdate [DecidableEq κ] (d u : List (κ × α)) : List (κ × α) :=
  u.foldl (fun acc kv => dictSet acc kv.1 kv.2) d

/-- A constructed instance: its allocation identity plus the constructor
arguments it was actually built with.  Two calls of the constructor always
produce objects with distinct allocation ids. -/
structure Inst where
  objId : Nat
  ctorArgs : List String
deriving DecidableEq, Repr

/-- The state of SingletonBase: the class-level _instances dict keyed by the
concrete class, plus an allocation counter standing for object creation. -/
structure RegState where
  instances : List (Nat × Inst)
  nextObjId : Nat
deriving DecidableEq, Repr

/-- SingletonBase.get_instance (src/confumo/singleton_base.py lines 21-30):
if cls is not a key of _instances, construct cls with the given arguments and
record the result; in every case return the recorded instance. -/
def get_instance (s : RegState) (T : Nat) (args : List String) : Inst × RegState :=
  match dictGet s.instances T with
  | some i => (i, s)
  | none =>
    (⟨s.nextObjId, args⟩,
     ⟨dictSet s.instances T ⟨s.nextObjId, args⟩, s.nextObjId + 1⟩)

/-- The single exception class of confumo.py, carrying only a message. -/
structure ConfumoError where
  message : String
deriving DecidableEq, Repr

/-- os.path.expanduser restricted to the use in confumo.py: a path beginning
with a tilde has the tilde replaced by the home directory. -/
def expanduser (home p : String) : String :=
  if strStartsWith p "~" then home ++ (⟨p.data.drop 1⟩ : String) else p

/-- Confumo._get_default_config_dir (confumo.py lines 48-65).  The platform
name is the value of platform.system, home the user home directory, env the
process environment.  Python tests the LOCALAPPDATA value for truthiness, so
the empty string is treated like an unset variable. -/
def get_default_config_dir (platform_name home : String)
    (env : String → Option String) : Except ConfumoError String :=
  if platform_name = "Darwin" then
    .ok (expanduser home "~/Library/Application Support")
  else if platform_name = "Linux" ∨ platform_name = "CYGWIN" then
    .ok (expanduser home "~/.config")
  else if platform_name = "Windows" then
    match env "LOCALAPPDATA" with
    | some v =>
      if v = "" then
        .error ⟨"LOCALAPPDATA environment variable is not set on Windows"⟩
      else .ok v
    | none => .error ⟨"LOCALAPPDATA environment variable is not set on Windows"⟩
  else .error ⟨"Unsupported OS: " ++ platform_name⟩

/-- The Python exceptions that the modelled paths can raise. -/
inductive PyExc
  | fileNotFoundError
  | attributeError
  | yamlError
deriving DecidableEq, Repr

/-- The outcome of subprocess.run for the cygpath invocation: either the
executable is missing (Python raises FileNotFoundError) or the process ran to
completion with some exit status and captured standard output. -/
inductive RunResult
  | missing
  | ran (exitCode : Nat) (stdout : String)
deriving DecidableEq, Repr

/-- Confumo._cygwin_to_windows_path (confumo.py lines 137-145).  The code
calls subprocess.run without check=True, so a completed process is never
inspected for its exit status: result.stdout.strip() is returned whatever the
status was.  Only a missing executable escapes as an exception. -/
def cygwin_to_windows_path (run : RunResult) : Except PyExc String :=
  match run with
  | .missing => .error .fileNotFoundError
  | .ran _ out => .ok (pyStrip out)

/-- Confumo._is_cygwin: case-insensitive substring match of cygwin inside the
OSTYPE environment variable (empty when unset). -/
def is_cygwin (env : String → Option String) : Bool :=
  listContainsSub ("cygwin".data) (strLower ((env "OSTYPE").getD "")).data

/-- Confumo._ensure_windows_path: in the emulation-detected branch delegate to
the cygpath conversion, otherwise return os.path.abspath of the input, the
latter passed as an explicit parameter. -/
def ensure_windows_path (env : String → Option String) (run : RunResult)
    (abspath : String → String) (path : String) : Except PyExc String :=
  if is_cygwin env then cygwin_to_windows_path run else .ok (abspath path)

/-- A concrete environment in which the emulation layer is detected. -/
def exampleCygwinEnv : String → Option String :=
  fun n => if n = "OSTYPE" then some "cygwin" else none

/-- The five accepted values of the log_level flag. -/
def log_levels : List String := ["DEBUG", "INFO", "WARNING", "ERROR", "CRITICAL"]

/-- A declared command-line flag: its option string and, when constrained, the
list of accepted values (the choices keyword of add_argument). -/
structure FlagSpec where
  name : String
  choices : Option (List String)
deriving DecidableEq, Repr

/-- The argparse Namespace produced by Confumo._parse_args: the three fixed
flags plus any caller-declared extra flags. -/
structure ParsedArgs where
  config : Option String
  log_level : String
  config_dir : String
  extra : List (String × String)
deriving DecidableEq, Repr

/-- The process-exit-worthy failure of argparse (SystemExit after the parser
prints its error). -/
structure ArgparseExit where
  msg : String
deriving DecidableEq, Repr

/-- The three flags Confumo._parse_args always declares (confumo.py lines
67-85): config and config_dir are unconstrained strings, log_level is
constrained to the five levels. -/
def fixedFlags : List FlagSpec :=
  [⟨"--config", none⟩, ⟨"--log_level", some log_levels⟩, ⟨"--config_dir", none⟩]

/-- Store one parsed flag value into the Namespace. -/
def setArg (acc : ParsedArgs) (flag v : String) : ParsedArgs :=
  if flag = "--config" then { acc with config := some v }
  else if flag = "--log_level" then { acc with log_level := v }
  else if flag = "--config_dir" then { acc with config_dir := v }
  else { acc with extra := dictSet acc.extra flag v }

/-- The argparse scan: each recognized option string consumes the following
token as its value; a token that is not a declared option, a missing value, a
value that itself looks like an option, or a value outside a declared choices
list all make the parser exit. -/
def parseTokens (specs : List FlagSpec) :
    ParsedArgs → List String → Except ArgparseExit ParsedArgs
  | acc, [] => .ok acc
  | acc, flag :: rest =>
    match List.find? (fun sp => decide (sp.name = flag)) specs with
    | none => .error ⟨"unrecognized arguments"⟩
    | some sp =>
      match rest with
      | [] => .error ⟨"expected one argument"⟩
      | v :: rest1 =>
        if strStartsWith v "-" then .error ⟨"expected one argument"⟩
        else
          match sp.choices with
          | some cs =>
            if v ∈ cs then parseTokens specs (setArg acc flag v) rest1
            else .error ⟨"invalid choice"⟩
          | none => parseTokens specs (setArg acc flag v) rest1

/-- Confumo._parse_args: the fixed flags plus the caller-supplied extra flag
specifications, with defaults log_level INFO and config_dir the resolved
default directory. -/
def parse_args (default_config_dir : String) (additional_args : List FlagSpec)
    (args : List String) : Except ArgparseExit ParsedArgs :=
  parseTokens (fixedFlags ++ additional_args) ⟨none, "INFO", default_config_dir, []⟩ args

/-- The dict comprehension in _initialize_configuration: keep exactly the file
entries whose value is not None. -/
def filterNonNull (f : List (String × Option String)) : List (String × String) :=
  f.filterMap (fun kv => match kv.2 with | some v => some (kv.1, v) | none => none)

/-- Confumo._initialize_configuration (confumo.py lines 87-103): build the base
dict of log_level, app_name and the normalized config_dir, then, when a config
file path was given (Python tests it for truthiness, so the empty string is
skipped), update the dict with the non-null entries of the file.  The path
normalizer and the file reader are passed as explicit parameters. -/
def initialize_configuration (app_name : String) (a : ParsedArgs)
    (normalize : String → String)
    (read : String → List (String × Option String)) : List (String × String) :=
  let base : List (String × String) :=
    [("log_level", a.log_level), ("app_name", app_name),
     ("config_dir", normalize a.config_dir)]
  match a.config with
  | none => base
  | some path =>
    if path = "" then base else dictUpdate base (filterNonNull (read path))

/-- Attribute access on the argparse Namespace: some value when the attribute
exists (its value may itself be Python None, hence the inner Option), none
when the Namespace has no such field. -/
def args_getattr (a : ParsedArgs) (name : String) : Option (Option String) :=
  if name = "config" then some a.config
  else if name = "log_level" then some (some a.log_level)
  else if name = "config_dir" then some (some a.config_dir)
  else
    match dictGet a.extra name with
    | some v => some (some v)
    | none => none

/-- Confumo.__getattr__ (confumo.py lines 185-197), for an instance whose
config and args attributes are initialized: the guard for the two pickling
protocol names fails first, then the config dict is consulted, then the parsed
arguments, and otherwise AttributeError is raised. -/
def confumo_getattr (config : List (String × String)) (a : ParsedArgs)
    (name : String) : Except PyExc (Option String) :=
  if name = "__getstate__" ∨ name = "__setstate__" then .error .attributeError
  else
    match dictGet config name with
    | some v => .ok (some v)
    | none =>
      match args_getattr a name with
      | some v => .ok v
      | none => .error .attributeError

/-- A filesystem path as its list of components (os.path.join is append). -/
abbrev FsPath := List String

/-- The filesystem state: the set of existing directories and the text files,
each a list of lines. -/
structure FS where
  dirs : List FsPath
  files : List (FsPath × List String)
deriving DecidableEq, Repr

/-- All nonempty prefixes of a path: the directories os.makedirs creates. -/
def prefixesOf (p : FsPath) : List FsPath :=
  (List.range p.length).map (fun i => p.take (i + 1))

/-- os.makedirs: create the directory and every missing ancestor. -/
def makedirs (fs : FS) (p : FsPath) : FS :=
  { fs with dirs := fs.dirs ++ prefixesOf p }

/-- The model of yaml.dump for a flat string-valued mapping: one line per
entry, key and value separated by a colon and a space. -/
def yaml_dump (config : List (String × String)) : List String :=
  config.map (fun kv => kv.1 ++ ": " ++ kv.2)

/-- Split a line at its first colon. -/
def splitAtColon : List Char → Option (List Char × List Char)
  | [] => none
  | c :: rest =>
    if c = ':' then some ([], rest)
    else
      match splitAtColon rest with
      | some (k, v) => some (c :: k, v)
      | none => none

/-- Parse one line of the flat document: key, colon, space, value. -/
def parse_line (s : String) : Option (String × String) :=
  match splitAtColon s.data with
  | some (k, ' ' :: v) => some (⟨k⟩, ⟨v⟩)
  | _ => none

/-- The model of yaml.safe_load for a flat document: every line must parse,
and the resulting pairs form the loaded mapping in order. -/
def yaml_safe_load : List String → Option (List (String × String))
  | [] => some []
  | line :: rest =>
    match parse_line line, yaml_safe_load rest with
    | some kv, some m => some (kv :: m)
    | _, _ => none

/-- Confumo.save_config (confumo.py lines 147-158): create the config
directory when it does not exist, write the serialized configuration to
config_dir joined with app_name followed by _config.yaml, overwriting any
existing file, and return that path together with the new filesystem. -/
def save_config (fs : FS) (app_name : String) (config_dir : FsPath)
    (config : List (String × String)) : FsPath × FS :=
  let fs1 := if config_dir ∈ fs.dirs then fs else makedirs fs config_dir
  let path := config_dir ++ [app_name ++ "_config.yaml"]
  (path, { fs1 with files := dictSet fs1.files path (yaml_dump config) })

/-- Confumo._read_config_file (confumo.py lines 105-114): open raises
FileNotFoundError when the path is absent, otherwise the file content is fed
to the YAML loader. -/
def read_config_file (fs : FS) (p : FsPath) :
    Except PyExc (List (String × String)) :=
  match dictGet fs.files p with
  | none => .error .fileNotFoundError
  | some lines =>
    match yaml_safe_load lines with
    | some m => .ok m
    | none => .error .yamlError

/-- The Python values that can sit in an instance attribute dictionary or a
module namespace, as far as Confumo.copy distinguishes them: the only test the
code makes is isinstance(v, type(sys)), that is, whether the value is a
module. -/
inductive PyVal
  | pstr (s : String)
  | pmap (m : List (String × String))
  | pnone
  | pmodule (name : String)
  | pfun (name : String)
deriving DecidableEq, Repr

/-- An attribute dictionary (an instance __dict__ or a module namespace). -/
abbrev AttrDict := List (String × PyVal)

/-- The isinstance(v, type(sys)) test of Confumo.copy. -/
def isModuleVal : PyVal → Bool
  | .pmodule _ => true
  | _ => false

/-- The promotion loop at the top of Confumo.copy (confumo.py lines 168-172):
every module-namespace attribute whose name does not start with a double
underscore is assigned onto the instance. -/
def promote_module_attrs (self moduleAttrs : AttrDict) : AttrDict :=
  moduleAttrs.foldl
    (fun acc kv => if strStartsWith kv.1 "__" then acc else dictSet acc kv.1 kv.2)
    self

/-- The module-namespace entries the promotion loop actually assigns. -/
def promotedEntries (moduleAttrs : AttrDict) : AttrDict :=
  moduleAttrs.filter (fun kv => !(strStartsWith kv.1 "__"))

/-- Confumo.copy (confumo.py lines 160-183).  The first component is the
attribute dictionary of the original after the call (the promotion loop
mutates it), the second that of the returned copy: copy.copy duplicates the
whole dictionary of the promoted original, and the subsequent dict.update
with the module-free shallow_copy only overwrites keys, it removes none. -/
def confumo_copy (self moduleAttrs : AttrDict) : AttrDict × AttrDict :=
  let self1 := promote_module_attrs self moduleAttrs
  let shallow := self1.filter (fun kv => !(isModuleVal kv.2))
  (self1, dictUpdate self1 shallow)

/-! Helper lemmas about the dict model. -/

theorem dictGet_dictSet_self [DecidableEq κ] (d : List (κ × α)) (k : κ) (v : α) :
    dictGet (dictSet d k v) k = some v := by
  induction d with
  | nil => simp [dictSet, dictGet]
  | cons kv rest ih =>
    obtain ⟨k', v'⟩ := kv
    by_cases h : k' = k
    · simp [dictSet, h, dictGet]
    · simp [dictSet, h, dictGet, ih]

theorem dictGet_dictSet_ne [DecidableEq κ] (d : List (κ × α)) (k j : κ) (v : α)
    (h : j ≠ k) : dictGet (dictSet d k v) j = dictGet d j := by
  induction d with
  | nil => simp [dictSet, dictGet, Ne.symm h]
  | cons kv rest ih =>
    obtain ⟨k', v'⟩ := kv
    by_cases hk : k' = k
    · subst hk
      have hkj : k' ≠ j := fun hh => h hh.symm
      simp [dictSet, dictGet, hkj]
    · simp only [dictSet, if_neg hk]
      by_cases hj : k' = j
      · simp [dictGet, hj]
      · simp [dictGet, hj, ih]

theorem mem_dictKeys (d : List (κ × α)) (k : κ) (v : α) (h : (k, v) ∈ d) :
    k ∈ dictKeys d := by
  unfold dictKeys
  exact List.mem_map_of_mem Prod.fst h

theorem dictGet_eq_none_iff [DecidableEq κ] (d : List (κ × α)) (k : κ) :
    dictGet d k = none ↔ k ∉ dictKeys d := by
  induction d with
  | nil => simp [dictGet, dictKeys]
  | cons kv rest ih =>
    obtain ⟨k', v'⟩ := kv
    by_cases h : k' = k
    · subst h
      simp [dictGet, dictKeys]
    · simp [dictGet, dictKeys, h, ih, Ne.symm h]

theorem dictGet_of_mem_nodup [DecidableEq κ] (d : List (κ × α)) (k : κ) (v : α)
    (hnd : (dictKeys d).Nodup) (h : (k, v) ∈ d) : dictGet d k = some v := by
  induction d with
  | nil => simp at h
  | cons kv rest ih =>
    obtain ⟨k', v'⟩ := kv
    rcases List.mem_cons.mp h with heq | hmem
    · injection heq with h1 h2
      subst h1
      subst h2
      simp [dictGet]
    · have hk : k ∈ dictKeys rest := mem_dictKeys rest k v hmem
      have hne : k' ≠ k := by
        intro hh
        exact ((List.nodup_cons.mp hnd).1 (hh ▸ hk))
      simp only [dictGet, if_neg hne]
      exact ih (List.nodup_cons.mp hnd).2 hmem

theorem dictGet_dictUpdate_of_not_mem [DecidableEq κ] (d u : List (κ × α)) (j : κ)
    (h : j ∉ dictKeys u) : dictGet (dictUpdate d u) j = dictGet d j := by
  induction u generalizing d with
  | nil => rfl
  | cons kv u' ih =>
    have h1 : j ≠ kv.1 := by
      intro hh
      exact h (by simp [dictKeys, hh])
    have h2 : j ∉ dictKeys u' := by
      intro hh
      exact h (by simp [dictKeys] at hh ⊢; exact Or.inr hh)
    calc dictGet (dictUpdate d (kv :: u')) j
        = dictGet (dictUpdate (dictSet d kv.1 kv.2) u') j := rfl
      _ = dictGet (dictSet d kv.1 kv.2) j := ih _ h2
      _ = dictGet d j := dictGet_dictSet_ne _ _ _ _ h1

theorem dictGet_dictUpdate_of_mem [DecidableEq κ] (d u : List (κ × α)) (j : κ) (v : α)
    (hnd : (dictKeys u).Nodup) (h : dictGet u j = some v) :
    dictGet (dictUpdate d u) j = some v := by
  induction u generalizing d with
  | nil => simp [dictGet] at h
  | cons kv u' ih =>
    obtain ⟨k, w⟩ := kv
    have hstep : dictGet (dictUpdate d ((k, w) :: u')) j
        = dictGet (dictUpdate (dictSet d k w) u') j := rfl
    by_cases hk : k = j
    · subst hk
      have hv : w = v := by simpa [dictGet] using h
      subst hv
      have hnot : k ∉ dictKeys u' := (List.nodup_cons.mp hnd).1
      rw [hstep, dictGet_dictUpdate_of_not_mem _ _ _ hnot, dictGet_dictSet_self]
    · have h' : dictGet u' j = some v := by simpa [dictGet, hk] using h
      rw [hstep]
      exact ih _ (List.nodup_cons.mp hnd).2 h'

theorem dictKeys_filterNonNull_sublist (f : List (String × Option String)) :
    (dictKeys (filterNonNull f)).Sublist (dictKeys f) := by
  induction f with
  | nil => simp [filterNonNull, dictKeys]
  | cons kv rest ih =>
    obtain ⟨k, o⟩ := kv
    cases o with
    | some v =>
      simpa [filterNonNull, dictKeys] using ih.cons₂ k
    | none =>
      simpa [filterNonNull, dictKeys] using ih.cons k

theorem mem_filterNonNull (f : List (String × Option String)) (k v : String)
    (h : (k, some v) ∈ f) : (k, v) ∈ filterNonNull f := by
  unfold filterNonNull
  exact List.mem_filterMap.mpr ⟨(k, some v), h, rfl⟩

theorem dictGet_filterNonNull_of_none (f : List (String × Option String)) (k : String)
    (hnd : (dictKeys f).Nodup) (h : (k, none) ∈ f) :
    dictGet (filterNonNull f) k = none := by
  induction f with
  | nil => simp at h
  | cons kv rest ih =>
    obtain ⟨k', o⟩ := kv
    rcases List.mem_cons.mp h with heq | hmem
    · injection heq with h1 h2
      subst h1
      subst h2
      have hnot : k ∉ dictKeys rest := (List.nodup_cons.mp hnd).1
      have hnot2 : k ∉ dictKeys (filterNonNull rest) :=
        fun hh => hnot ((dictKeys_filterNonNull_sublist rest).subset hh)
      simpa [filterNonNull] using (dictGet_eq_none_iff _ _).mpr hnot2
    · have hk : k ∈ dictKeys rest := mem_dictKeys rest k none hmem
      have hne : k' ≠ k := by
        intro hh
        exact ((List.nodup_cons.mp hnd).1 (hh ▸ hk))
      have ihr := ih (List.nodup_cons.mp hnd).2 hmem
      cases o with
      | some w => simpa [filterNonNull, dictGet, hne] using ihr
      | none => simpa [filterNonNull] using ihr

/-! Helper lemmas for the copy model. -/

theorem promote_eq_dictUpdate (self m : AttrDict) :
    promote_module_attrs self m = dictUpdate self (promotedEntries m) := by
  induction m generalizing self with
  | nil => rfl
  | cons kv m' ih =>
    cases hp : strStartsWith kv.1 "__" with
    | true =>
      have h1 : promote_module_attrs self (kv :: m') = promote_module_attrs self m' := by
        simp [promote_module_attrs, hp]
      have h2 : promotedEntries (kv :: m') = promotedEntries m' := by
        simp [promotedEntries, List.filter, hp]
      rw [h1, h2, ih]
    | false =>
      have h1 : promote_module_attrs self (kv :: m')
          = promote_module_attrs (dictSet self kv.1 kv.2) m' := by
        simp [promote_module_attrs, hp]
      have h2 : promotedEntries (kv :: m') = kv :: promotedEntries m' := by
        simp [promotedEntries, List.filter, hp]
      rw [h1, h2, ih]
      rfl

theorem dictKeys_promotedEntries_nodup (m : AttrDict)
    (hnd : (dictKeys m).Nodup) : (dictKeys (promotedEntries m)).Nodup := by
  have hsub : (dictKeys (promotedEntries m)).Sublist (dictKeys m) := by
    unfold promotedEntries dictKeys
    exact (List.filter_sublist m).map Prod.fst
  exact hnd.sublist hsub

/-! Helper lemmas for the YAML codec and the filesystem. -/

theorem splitAtColon_append (k rest : List Char) (hk : ':' ∉ k) :
    splitAtColon (k ++ ':' :: rest) = some (k, rest) := by
  induction k with
  | nil => simp [splitAtColon]
  | cons c k' ih =>
    have hc : ¬(c = ':') := fun h => hk (by simp [h])
    have ihr := ih (fun h => hk (List.mem_cons_of_mem _ h))
    simp [splitAtColon, hc, ihr]

theorem string_mk_data (s : String) : (⟨s.data⟩ : String) = s := by
  cases s
  rfl

theorem string_data_append (s t : String) : (s ++ t).data = s.data ++ t.data := by
  cases s
  cases t
  rfl

theorem parse_line_dump (k v : String) (hk : ':' ∉ k.data) :
    parse_line (k ++ ": " ++ v) = some (k, v) := by
  have hdata : (k ++ ": " ++ v).data = k.data ++ ':' :: ' ' :: v.data := by
    rw [string_data_append, string_data_append]
    simp
  unfold parse_line
  rw [hdata, splitAtColon_append _ _ hk]
  simp [string_mk_data]

theorem yaml_roundtrip (config : List (String × String))
    (hwf : ∀ k ∈ dictKeys config, ':' ∉ k.data) :
    yaml_safe_load (yaml_dump config) = some config := by
  induction config with
  | nil => rfl
  | cons kv rest ih =>
    obtain ⟨k, v⟩ := kv
    have hk : ':' ∉ k.data := hwf k (by simp [dictKeys])
    have ihr := ih (fun k' h => hwf k' (by simp [dictKeys] at h ⊢; exact Or.inr h))
    simp only [yaml_dump, List.map_cons] at *
    simp [yaml_safe_load, parse_line_dump k v hk, ihr]

theorem save_config_writes (fs : FS) (app : String) (D : FsPath)
    (config : List (String × String)) :
    dictGet (save_config fs app D config).2.files (save_config fs app D config).1
      = some (yaml_dump config) := by
  unfold save_config
  by_cases h : D ∈ fs.dirs <;> simp [h, dictGet_dictSet_self]

theorem self_mem_prefixesOf (D : FsPath) (h : D ≠ []) : D ∈ prefixesOf D := by
  unfold prefixesOf
  refine List.mem_map.mpr ⟨D.length - 1, ?_, ?_⟩
  · have : 0 < D.length := List.length_pos.mpr h
    simp [List.mem_range]
    omega
  · have hlen : D.length - 1 + 1 = D.length :=
      Nat.succ_pred_eq_of_pos (List.length_pos.mpr h)
    rw [hlen, List.take_length]

/-! Claim theorems. -/

/-- Claim C1: for every identity type T and argument lists a1 and a2, the
second get_instance call returns exactly the instance the first call returned,
leaves the whole registry state unchanged, the instance is recorded under T
after the first call, and when no instance existed the first call constructs
one from its own arguments. -/
theorem get_instance_singleton (s : RegState) (T : Nat) (a1 a2 : List String) :
    (get_instance (get_instance s T a1).2 T a2).1 = (get_instance s T a1).1
    ∧ (get_instance (get_instance s T a1).2 T a2).2 = (get_instance s T a1).2
    ∧ dictGet (get_instance s T a1).2.instances T = some (get_instance s T a1).1
    ∧ (dictGet s.instances T = none →
        (get_instance s T a1).1 = ⟨s.nextObjId, a1⟩) := by
  cases h : dictGet s.instances T with
  | some i => simp [get_instance, h]
  | none => simp [get_instance, h, dictGet_dictSet_self]

/-- Concrete run of get_instance_singleton: the registry is empty, the first
call constructs the instance from its arguments, the second call with other
arguments returns the identical instance. -/
theorem get_instance_singleton_witness :
    (get_instance (get_instance (⟨[], 0⟩ : RegState) 0 ["testapp"]).2 0 ["other"]).1
      = (get_instance (⟨[], 0⟩ : RegState) 0 ["testapp"]).1
    ∧ (get_instance (⟨[], 0⟩ : RegState) 0 ["testapp"]).1 = ⟨0, ["testapp"]⟩ := by
  have h := get_instance_singleton ⟨[], 0⟩ 0 ["testapp"] ["other"]
  exact ⟨h.1, h.2.2.2 (by decide)⟩

/-- Claim C4: the platform resolver returns the fixed per-user paths for
Darwin, Linux and CYGWIN, returns the LOCALAPPDATA value on Windows when it is
set and nonempty, fails when it is unset, and fails for every other platform
name. -/
theorem get_default_config_dir_spec (home : String) (env : String → Option String) :
    (get_default_config_dir "Darwin" home env
        = .ok (home ++ "/Library/Application Support"))
    ∧ (get_default_config_dir "Linux" home env = .ok (home ++ "/.config"))
    ∧ (get_default_config_dir "CYGWIN" home env = .ok (home ++ "/.config"))
    ∧ (env "LOCALAPPDATA" = none →
        get_default_config_dir "Windows" home env
          = .error ⟨"LOCALAPPDATA environment variable is not set on Windows"⟩)
    ∧ (∀ v, env "LOCALAPPDATA" = some v → v ≠ "" →
        get_default_config_dir "Windows" home env = .ok v)
    ∧ (∀ p, p ≠ "Darwin" → p ≠ "Linux" → p ≠ "CYGWIN" → p ≠ "Windows" →
        get_default_config_dir p home env = .error ⟨"Unsupported OS: " ++ p⟩) := by
  have e1 : expanduser home "~/Library/Application Support"
      = home ++ "/Library/Application Support" := by
    unfold expanduser
    rw [if_pos (by decide),
      show (⟨List.drop 1 "~/Library/Application Support".data⟩ : String)
        = "/Library/Application Support" by decide]
  have e2 : expanduser home "~/.config" = home ++ "/.config" := by
    unfold expanduser
    rw [if_pos (by decide),
      show (⟨List.drop 1 "~/.config".data⟩ : String) = "/.config" by decide]
  refine ⟨?_, ?_, ?_, ?_, ?_, ?_⟩
  · simp [get_default_config_dir, e1]
  · simp [get_default_config_dir, e2]
  · simp [get_default_config_dir, e2]
  · intro h
    simp [get_default_config_dir, h]
  · intro v hv hne
    simp [get_default_config_dir, hv, hne]
  · intro p h1 h2 h3 h4
    simp [get_default_config_dir, h1, h2, h3, h4]

/-- Concrete runs of get_default_config_dir_spec on every branch. -/
theorem get_default_config_dir_spec_witness :
    get_default_config_dir "Darwin" "/home/u" (fun _ => none)
        = .ok "/home/u/Library/Application Support"
    ∧ get_default_config_dir "Windows" "/home/u" (fun _ => none)
        = .error ⟨"LOCALAPPDATA environment variable is not set on Windows"⟩
    ∧ get_default_config_dir "Windows" "/home/u"
        (fun n => if n = "LOCALAPPDATA" then some "C:\\Users\\u\\AppData\\Local" else none)
        = .ok "C:\\Users\\u\\AppData\\Local"
    ∧ get_default_config_dir "Solaris" "/home/u" (fun _ => none)
        = .error ⟨"Unsupported OS: Solaris"⟩ := by
  refine ⟨?_, ?_, ?_, ?_⟩
  · exact ((get_default_config_dir_spec "/home/u" (fun _ => none)).1).trans (by decide)
  · exact (get_default_config_dir_spec "/home/u" (fun _ => none)).2.2.2.1 rfl
  · exact (get_default_config_dir_spec "/home/u"
      (fun n => if n = "LOCALAPPDATA" then some "C:\\Users\\u\\AppData\\Local" else none)
      ).2.2.2.2.1 "C:\\Users\\u\\AppData\\Local" (by decide) (by decide)
  · exact ((get_default_config_dir_spec "/home/u" (fun _ => none)).2.2.2.2.2
      "Solaris" (by decide) (by decide) (by decide) (by decide)).trans (by decide)

/-- Claim C2, counterexample: the name __setstate__ is not an explicitly
declared attribute, it is a key of the configuration map with value x, yet the
lookup raises AttributeError instead of returning x, because the guard at the
top of Confumo.__getattr__ fires before the configuration map is consulted. -/
theorem confumo_getattr_guard_cex :
    dictGet [("__setstate__", "x")] "__setstate__" = some "x"
    ∧ confumo_getattr [("__setstate__", "x")] ⟨none, "INFO", "/d", []⟩ "__setstate__"
        = .error .attributeError := by
  decide

/-- Claim C2 (amended): for every name other than the two pickling protocol
names __getstate__ and __setstate__, the lookup returns the configuration map
value when the name is one of its keys, else the parsed-arguments field of
that name when it exists, and otherwise raises AttributeError. -/
theorem confumo_getattr_resolution (config : List (String × String))
    (a : ParsedArgs) (name : String)
    (h1 : name ≠ "__getstate__") (h2 : name ≠ "__setstate__") :
    (∀ v, dictGet config name = some v →
      confumo_getattr config a name = .ok (some v))
    ∧ (dictGet config name = none → ∀ v, args_getattr a name = some v →
      confumo_getattr config a name = .ok v)
    ∧ (dictGet config name = none → args_getattr a name = none →
      confumo_getattr config a name = .error .attributeError) := by
  unfold confumo_getattr
  rw [if_neg (by simp [h1, h2])]
  refine ⟨?_, ?_, ?_⟩
  · intro v hv
    simp [hv]
  · intro hnone v hv
    simp [hnone, hv]
  · intro hnone hv
    simp [hnone, hv]

/-- Concrete runs of confumo_getattr_resolution: the configuration key
custom_value resolves to x, and missing_attr raises AttributeError. -/
theorem confumo_getattr_resolution_witness :
    confumo_getattr [("custom_value", "x")] ⟨none, "INFO", "/d", []⟩ "custom_value"
      = .ok (some "x")
    ∧ confumo_getattr [] ⟨none, "INFO", "/d", []⟩ "missing_attr"
      = .error .attributeError := by
  refine ⟨?_, ?_⟩
  · exact (confumo_getattr_resolution [("custom_value", "x")]
      ⟨none, "INFO", "/d", []⟩ "custom_value" (by decide) (by decide)).1 "x" (by decide)
  · exact (confumo_getattr_resolution [] ⟨none, "INFO", "/d", []⟩ "missing_attr"
      (by decide) (by decide)).2.2 (by decide) (by decide)

/-- Claim C3: when a config file is given, every file entry with a non-null
value ends up in the assembled map with exactly the file value, and every
null-valued file entry is dropped, leaving the base entry for that key
untouched. -/
theorem initialize_configuration_merge (app : String) (a : ParsedArgs)
    (normalize : String → String) (read : String → List (String × Option String))
    (path : String) (file : List (String × Option String))
    (hc : a.config = some path) (hp : path ≠ "") (hr : read path = file)
    (hnd : (dictKeys file).Nodup) :
    (∀ k v, (k, some v) ∈ file →
      dictGet (initialize_configuration app a normalize read) k = some v)
    ∧ (∀ k, (k, none) ∈ file →
      dictGet (initialize_configuration app a normalize read) k
        = dictGet [("log_level", a.log_level), ("app_name", app),
                   ("config_dir", normalize a.config_dir)] k) := by
  have hform : initialize_configuration app a normalize read
      = dictUpdate [("log_level", a.log_level), ("app_name", app),
                    ("config_dir", normalize a.config_dir)] (filterNonNull file) := by
    unfold initialize_configuration
    rw [hc]
    simp [hp, hr]
  have hndf : (dictKeys (filterNonNull file)).Nodup :=
    hnd.sublist (dictKeys_filterNonNull_sublist file)
  constructor
  · intro k v hmem
    rw [hform]
    exact dictGet_dictUpdate_of_mem _ _ _ _ hndf
      (dictGet_of_mem_nodup _ _ _ hndf (mem_filterNonNull file k v hmem))
  · intro k hmem
    rw [hform]
    exact dictGet_dictUpdate_of_not_mem _ _ _
      ((dictGet_eq_none_iff _ _).mp (dictGet_filterNonNull_of_none file k hnd hmem))

/-- Concrete run of initialize_configuration_merge: base log_level INFO, file
with log_level DEBUG and a null extra entry; the assembled map holds DEBUG and
has no key extra. -/
theorem initialize_configuration_merge_witness :
    dictGet (initialize_configuration "confumo"
        ⟨some "/cfg.yaml", "INFO", "/d", []⟩ (fun p => p)
        (fun _ => [("log_level", some "DEBUG"), ("extra", none)])) "log_level"
      = some "DEBUG"
    ∧ dictGet (initialize_configuration "confumo"
        ⟨some "/cfg.yaml", "INFO", "/d", []⟩ (fun p => p)
        (fun _ => [("log_level", some "DEBUG"), ("extra", none)])) "extra"
      = none := by
  have h := initialize_configuration_merge "confumo"
      ⟨some "/cfg.yaml", "INFO", "/d", []⟩ (fun p => p)
      (fun _ => [("log_level", some "DEBUG"), ("extra", none)]) "/cfg.yaml"
      [("log_level", some "DEBUG"), ("extra", none)]
      rfl (by decide) rfl (by decide)
  exact ⟨h.1 "log_level" "DEBUG" (by decide),
    (h.2 "extra" (by decide)).trans (by decide)⟩

/-- Claim C5: save_config returns exactly the path config_dir joined with
app_name followed by _config.yaml, the serialized configuration sits at that
path afterwards (overwriting whatever was there), a previously missing config
directory is created together with all its ancestors, and an existing one is
left alone. -/
theorem save_config_spec (fs : FS) (app : String) (D : FsPath)
    (config : List (String × String)) :
    (save_config fs app D config).1 = D ++ [app ++ "_config.yaml"]
    ∧ dictGet (save_config fs app D config).2.files (D ++ [app ++ "_config.yaml"])
        = some (yaml_dump config)
    ∧ (D ∉ fs.dirs → ∀ q ∈ prefixesOf D, q ∈ (save_config fs app D config).2.dirs)
    ∧ (D ∉ fs.dirs → D ≠ [] → D ∈ (save_config fs app D config).2.dirs)
    ∧ (D ∈ fs.dirs → (save_config fs app D config).2.dirs = fs.dirs) := by
  refine ⟨rfl, save_config_writes fs app D config, ?_, ?_, ?_⟩
  · intro hD q hq
    simp [save_config, makedirs, hD]
    exact Or.inr hq
  · intro hD hne
    simp [save_config, makedirs, hD]
    exact self_mem_prefixesOf D hne
  · intro hD
    simp [save_config, hD]

/-- Concrete run of save_config_spec on an initially empty filesystem. -/
theorem save_config_spec_witness :
    (save_config ⟨[], []⟩ "testapp" ["home", "u", ".config", "testapp"]
        [("log_level", "INFO")]).1
      = ["home", "u", ".config", "testapp", "testapp_config.yaml"]
    ∧ dictGet (save_config ⟨[], []⟩ "testapp" ["home", "u", ".config", "testapp"]
        [("log_level", "INFO")]).2.files
        ["home", "u", ".config", "testapp", "testapp_config.yaml"]
      = some ["log_level: INFO"]
    ∧ ["home"] ∈ (save_config (⟨[], []⟩ : FS) "testapp"
        ["home", "u", ".config", "testapp"] [("log_level", "INFO")]).2.dirs
    ∧ ["home", "u", ".config", "testapp"] ∈ (save_config (⟨[], []⟩ : FS) "testapp"
        ["home", "u", ".config", "testapp"] [("log_level", "INFO")]).2.dirs := by
  have h := save_config_spec ⟨[], []⟩ "testapp" ["home", "u", ".config", "testapp"]
      [("log_level", "INFO")]
  refine ⟨h.1.trans (by decide), h.2.1.trans (by decide),
    h.2.2.1 (by decide) ["home"] (by decide), h.2.2.2.1 (by decide) (by decide)⟩

/-- Claim C6, counterexample: with the emulation layer detected and the
conversion utility exiting with status 1, the path normalization does not
fail, it returns the stripped captured output, here the empty string; the
second conjunct shows the same for _cygwin_to_windows_path directly. -/
theorem cygwin_nonzero_exit_cex :
    ensure_windows_path exampleCygwinEnv (.ran 1 "") (fun p => p) "/x" = .ok ""
    ∧ cygwin_to_windows_path (.ran 1 "C:\\conv\n") = .ok "C:\\conv" := by
  decide

/-- Claim C6 (amended): in the emulation-detected branch, a missing conversion
executable propagates to the caller as a fatal error, unchanged and without
retry; a non-zero exit status does not propagate: the captured standard
output, stripped of surrounding whitespace, is returned whatever the status
was. -/
theorem cygwin_failure_modes (env : String → Option String)
    (abspath : String → String) (p : String) (h : is_cygwin env = true) :
    ensure_windows_path env .missing abspath p = .error .fileNotFoundError
    ∧ ∀ c out, ensure_windows_path env (.ran c out) abspath p = .ok (pyStrip out) := by
  constructor
  · simp [ensure_windows_path, h, cygwin_to_windows_path]
  · intro c out
    simp [ensure_windows_path, h, cygwin_to_windows_path]

/-- Concrete run of cygwin_failure_modes in a detected emulation environment. -/
theorem cygwin_failure_modes_witness :
    ensure_windows_path exampleCygwinEnv .missing (fun p => p) "/x"
      = .error .fileNotFoundError
    ∧ ensure_windows_path exampleCygwinEnv (.ran 0 " C:\\conv \n") (fun p => p) "/x"
      = .ok "C:\\conv" := by
  have h := cygwin_failure_modes exampleCygwinEnv (fun p => p) "/x" (by decide)
  exact ⟨h.1, (h.2 0 " C:\\conv \n").trans (by decide)⟩

/-- Claim C7: saving an assembled configuration map and reading the written
file back through the file-read path yields exactly the saved map. -/
theorem save_then_read_roundtrip (fs : FS) (app : String) (D : FsPath)
    (config : List (String × String))
    (hwf : ∀ k ∈ dictKeys config, ':' ∉ k.data) :
    read_config_file (save_config fs app D config).2 (save_config fs app D config).1
      = .ok config := by
  unfold read_config_file
  rw [save_config_writes]
  simp [yaml_roundtrip config hwf]

/-- Concrete run of save_then_read_roundtrip on the example scenario map. -/
theorem save_then_read_roundtrip_witness :
    read_config_file
      (save_config ⟨[], []⟩ "testapp" ["cfg"]
        [("log_level", "INFO"), ("app_name", "testapp"), ("config_dir", "/cfg")]).2
      (save_config ⟨[], []⟩ "testapp" ["cfg"]
        [("log_level", "INFO"), ("app_name", "testapp"), ("config_dir", "/cfg")]).1
      = .ok [("log_level", "INFO"), ("app_name", "testapp"), ("config_dir", "/cfg")] :=
  save_then_read_roundtrip ⟨[], []⟩ "testapp" ["cfg"]
    [("log_level", "INFO"), ("app_name", "testapp"), ("config_dir", "/cfg")]
    (by decide)

/-- Claim C8, code evaluation at the failing input: after copy() on an
instance whose defining module binds the module os, the returned copy still
carries the module-valued attribute os, although the intermediate shallow_copy
dict (second conjunct) had excluded it: copy.copy duplicated the full
attribute dictionary and dict.update removes nothing. -/
theorem copy_retains_module_attribute :
    dictGet (confumo_copy [("app_name", PyVal.pstr "confumo")]
        [("os", PyVal.pmodule "os")]).2 "os" = some (PyVal.pmodule "os")
    ∧ dictGet ((promote_module_attrs [("app_name", PyVal.pstr "confumo")]
        [("os", PyVal.pmodule "os")]).filter (fun kv => !(isModuleVal kv.2))) "os"
      = none := by
  decide

/-- Claim C10: the promotion loop inside copy() mutates the receiver: every
module-namespace attribute whose name does not begin with a double underscore
is written onto the original instance with the module-namespace value, and
every attribute outside that promoted set keeps its previous value. -/
theorem copy_mutates_original (self m : AttrDict) (hnd : (dictKeys m).Nodup) :
    (∀ n v, (n, v) ∈ m → strStartsWith n "__" = false →
      dictGet (confumo_copy self m).1 n = some v)
    ∧ (∀ n, n ∉ dictKeys (promotedEntries m) →
      dictGet (confumo_copy self m).1 n = dictGet self n) := by
  have hc : (confumo_copy self m).1 = dictUpdate self (promotedEntries m) :=
    promote_eq_dictUpdate self m
  have hndf : (dictKeys (promotedEntries m)).Nodup :=
    dictKeys_promotedEntries_nodup m hnd
  constructor
  · intro n v hmem hstart
    have hmemf : (n, v) ∈ promotedEntries m := by
      unfold promotedEntries
      exact List.mem_filter.mpr ⟨hmem, by simp [hstart]⟩
    rw [hc]
    exact dictGet_dictUpdate_of_mem _ _ _ _ hndf
      (dictGet_of_mem_nodup _ _ _ hndf hmemf)
  · intro n hn
    rw [hc]
    exact dictGet_dictUpdate_of_not_mem _ _ _ hn

/-- Concrete run of copy_mutates_original: the original gains the promoted
module attribute os and keeps its own app_name attribute unchanged. -/
theorem copy_mutates_original_witness :
    dictGet (confumo_copy [("app_name", PyVal.pstr "confumo")]
        [("os", PyVal.pmodule "os"), ("__doc__", PyVal.pstr "doc")]).1 "os"
      = some (PyVal.pmodule "os")
    ∧ dictGet (confumo_copy [("app_name", PyVal.pstr "confumo")]
        [("os", PyVal.pmodule "os"), ("__doc__", PyVal.pstr "doc")]).1 "app_name"
      = some (PyVal.pstr "confumo") := by
  have h := copy_mutates_original [("app_name", PyVal.pstr "confumo")]
      [("os", PyVal.pmodule "os"), ("__doc__", PyVal.pstr "doc")] (by decide)
  exact ⟨h.1 "os" (PyVal.pmodule "os") (by decide) (by decide),
    (h.2 "app_name" (by decide)).trans (by decide)⟩

theorem parseTokens_invalid_choice (additional : List FlagSpec) (flag : String)
    (cs : List String)
    (hfind : List.find? (fun sp => decide (sp.name = flag)) (fixedFlags ++ additional)
        = some ⟨flag, some cs⟩)
    (hflag : strStartsWith flag "-" = true) :
    ∀ n (args : List String), args.length ≤ n → ∀ acc i v rest,
      args.drop i = flag :: v :: rest → v ∉ cs →
      ∃ e, parseTokens (fixedFlags ++ additional) acc args = .error e := by
  intro n
  induction n with
  | zero =>
    intro args hlen acc i v rest hdrop hv
    have hargs : args = [] := List.length_eq_zero.mp (Nat.le_zero.mp hlen)
    subst hargs
    simp at hdrop
  | succ n ih =>
    intro args hlen acc i v rest hdrop hv
    cases args with
    | nil => simp at hdrop
    | cons g rest0 =>
      cases hfind2 : List.find? (fun sp => decide (sp.name = g))
          (fixedFlags ++ additional) with
      | none => exact ⟨⟨"unrecognized arguments"⟩, by simp [parseTokens, hfind2]⟩
      | some sp =>
        cases rest0 with
        | nil => exact ⟨⟨"expected one argument"⟩, by simp [parseTokens, hfind2]⟩
        | cons v0 rest1 =>
          cases hdash : strStartsWith v0 "-" with
          | true =>
            exact ⟨⟨"expected one argument"⟩, by simp [parseTokens, hfind2, hdash]⟩
          | false =>
            cases i with
            | zero =>
              simp only [List.drop_zero] at hdrop
              injection hdrop with hg hdrop2
              injection hdrop2 with hv0 hrest
              subst hg
              subst hv0
              have hsp : sp = ⟨g, some cs⟩ := by
                rw [hfind] at hfind2
                exact (Option.some.inj hfind2).symm
              subst hsp
              exact ⟨⟨"invalid choice"⟩, by simp [parseTokens, hfind2, hdash, hv]⟩
            | succ i1 =>
              cases i1 with
              | zero =>
                simp only [List.drop_succ_cons, List.drop_zero] at hdrop
                injection hdrop with hv0 hrest
                rw [hv0, hflag] at hdash
                simp at hdash
              | succ i2 =>
                have hdrop2 : rest1.drop i2 = flag :: v :: rest := by
                  simpa using hdrop
                have hlen2 : rest1.length ≤ n := by
                  simp at hlen
                  omega
                obtain ⟨e, he⟩ := ih rest1 hlen2 (setArg acc g v0) i2 v rest hdrop2 hv
                cases hch : sp.choices with
                | none => exact ⟨e, by simp [parseTokens, hfind2, hdash, hch, he]⟩
                | some cs2 =>
                  by_cases hmem : v0 ∈ cs2
                  · exact ⟨e, by simp [parseTokens, hfind2, hdash, hch, hmem, he]⟩
                  · exact ⟨⟨"invalid choice"⟩,
                      by simp [parseTokens, hfind2, hdash, hch, hmem]⟩

/-- Claim C9: whenever the raw argument list carries, for any flag the parser
declares with a choices constraint (in particular log_level with its five
levels), a value outside that constraint, parsing fails with a
process-exit-worthy parse error instead of returning a Namespace. -/
theorem parse_args_invalid_choice (default_config_dir : String)
    (additional : List FlagSpec) (args : List String) (flag v : String)
    (cs : List String) (i : Nat) (rest : List String)
    (hfind : List.find? (fun sp => decide (sp.name = flag)) (fixedFlags ++ additional)
        = some ⟨flag, some cs⟩)
    (hflag : strStartsWith flag "-" = true)
    (hdrop : args.drop i = flag :: v :: rest)
    (hv : v ∉ cs) :
    ∃ e, parse_args default_config_dir additional args = .error e :=
  parseTokens_invalid_choice additional flag cs hfind hflag args.length args
    le_rfl ⟨none, "INFO", default_config_dir, []⟩ i v rest hdrop hv

/-- Concrete run of parse_args_invalid_choice: the value TRACE for log_level
is outside the five declared levels and the parse errors out. -/
theorem parse_args_invalid_choice_witness :
    ∃ e, parse_args "/default" [] ["--log_level", "TRACE"] = .error e :=
  parse_args_invalid_choice "/default" [] ["--log_level", "TRACE"] "--log_level"
    "TRACE" log_levels 0 [] (by decide) (by decide) rfl (by decide)

end ConfumoModel
